import Mathlib

/-
Verification of the student-dashboard data-filtering and metric-derivation
layer (src/student.py) against its specification.

The six base tables are modelled as lists of records.  pandas operations are
embedded as follows:
  * boolean-mask filtering            -> List.filter
  * pd.merge(left, cohort, on ID,
    how = inner)                      -> for each left row, one copy per
                                         matching cohort row, in left order
  * groupby(k).agg                    -> the sorted list of distinct keys,
                                         each paired with the aggregate of the
                                         rows having that key (pandas sorts
                                         group keys)
  * Series division (completed /
    total)                            -> index alignment: a key missing from
                                         the numerator yields NaN, modelled as
                                         Option.none
  * NaT (unparseable date)            -> Option.none; `NaT >= t` is False
  * empty DataFrame test `.empty`     -> List.isEmpty
Numeric columns are modelled as exact rationals (the CSV sources hold finite
decimals); floats in `f"{..:.1f}"` display formatting are rendered through an
explicit decimal formatter.
-/

/-- A row of the `student_summary.csv` table: the filterable cohort table.
`Class` and `Section` are Lean keywords, so the fields are `classVal` and
`sectionVal`. -/
structure SummaryRow where
  id : String
  name : String
  classVal : String
  sectionVal : String
  gender : String
  avgScore : ℚ
  attendanceRate : ℚ
  submissionRate : ℚ
deriving DecidableEq

/-- A row of the `student_scores.csv` table. -/
structure ScoreRow where
  id : String
  subject : String
  term : String
  score : ℚ
deriving DecidableEq

/-- A row of the `student_assignments.csv` table.  `Deadline` was parsed with
`pd.to_datetime(..., errors='coerce')`, so an unparseable value is the
NaT marker, modelled as `none`; a parsed date is a timestamp. -/
structure AssignmentRow where
  id : String
  assignment : String
  subject : String
  deadline : Option ℕ
  submitted : Bool
  marks : ℚ
deriving DecidableEq

/-- A row of the `student_attendance.csv` table.  `Date` is `none` when the
source value failed to parse (NaT); otherwise (year, month, day). -/
structure AttendanceRow where
  id : String
  date : Option (ℕ × ℕ × ℕ)
  present : Bool
deriving DecidableEq

/-! ### Generic helpers shared by the embedded operations -/

/-- Code-point comparison of characters (Python string order). -/
def charLe (a b : Char) : Bool := a.toNat ≤ b.toNat

/-- Lexicographic comparison of character lists (Python string order). -/
def listLe : List Char → List Char → Bool
  | [], _ => true
  | _ :: _, [] => false
  | a :: as, b :: bs => if a = b then listLe as bs else charLe a b

/-- Python / pandas string ordering, used by `sorted(...)` and by the
sorting of group keys in `groupby`. -/
def strLe (a b : String) : Bool := listLe a.data b.data

/-- Lexicographic order on (Subject, Term) pairs: the order of the keys of
`groupby(['Subject', 'Term'])`. -/
def pairLe (a b : String × String) : Bool :=
  if a.1 = b.1 then strLe a.2 b.2 else strLe a.1 b.1

/-- Insertion step of an insertion sort by a boolean comparison. -/
def insertLe (le : α → α → Bool) (a : α) : List α → List α
  | [] => [a]
  | b :: bs => if le a b then a :: b :: bs else b :: insertLe le a bs

/-- Insertion sort by a boolean comparison; models Python `sorted` and the
key ordering of pandas `groupby`. -/
def sortLe (le : α → α → Bool) (l : List α) : List α := l.foldr (insertLe le) []

/-- Distinct values of a column, sorted: models `sorted(col.unique())` and
the key list of a pandas `groupby`. -/
def uniqueSorted [DecidableEq α] (le : α → α → Bool) (l : List α) : List α :=
  sortLe le l.dedup

/-- Mean of a list of rationals: `Series.mean()` on a non-empty column. -/
def ratMean (l : List ℚ) : ℚ := l.sum / l.length

/-- Inner merge of a detail table with `cohort[['ID']]`:
`pd.merge(rows, filtered_summary[['ID']], on='ID', how='inner')`.  Left row
order is preserved and each left row appears once per matching cohort row. -/
def innerJoinID (idOf : α → String) (rows : List α) (cohort : List SummaryRow) :
    List α :=
  rows.flatMap (fun r => (cohort.filter (fun s => s.id = idOf r)).map (fun _ => r))

/-! ### Summary Filter Engine (student.py lines 80-86) -/

/-- `filtered_summary`: the three sequential boolean-mask filters guarded by
the `!= "All"` tests (student.py lines 80-86). -/
def applyFilters (summary : List SummaryRow)
    (classFilter sectionFilter genderFilter : String) : List SummaryRow :=
  let s1 := if classFilter = "All" then summary
    else summary.filter (fun r => r.classVal = classFilter)
  let s2 := if sectionFilter = "All" then s1
    else s1.filter (fun r => r.sectionVal = sectionFilter)
  if genderFilter = "All" then s2
  else s2.filter (fun r => r.gender = genderFilter)

/-! ### Section options and the section selectbox index (lines 63-71) -/

/-- `available_sections` (student.py lines 63-65): `["All"]`, extended, when a
concrete class is selected, by the sorted distinct Section values of the
Summary rows of that class. -/
def availableSections (summary : List SummaryRow) (selectedClass : String) :
    List String :=
  if selectedClass = "All" then ["All"]
  else "All" ::
    uniqueSorted strLe
      ((summary.filter (fun r => r.classVal = selectedClass)).map
        (fun r => r.sectionVal))

/-- The `index` argument of the Section selectbox (student.py line 70):
`0 if selected_section == "All" else available_sections.index(selected_section)`.
Python `list.index` raises `ValueError` when the element is absent, modelled
as `none`. -/
def sectionIndex (prevSection : String) (available : List String) : Option ℕ :=
  if prevSection = "All" then some 0 else available.indexOf? prevSection

/-! ### Per-student name resolution (lines 192-210, 266-272, 333-339, 399-405) -/

/-- `matching_students` (student.py line 198): the cohort rows whose Name is
the selected name. -/
def matchingStudents (cohort : List SummaryRow) (name : String) :
    List SummaryRow :=
  cohort.filter (fun r => r.name = name)

/-- Outcome of resolving a student name in the Performance tab. -/
inductive Resolution where
  | notFound
  | ambiguous (ids : List String)
  | resolved (id : String)
deriving DecidableEq

/-- The Performance tab's name resolution (student.py lines 198-210): empty
match set -> warning ("not found"); more than one match -> a selectbox over
all matching IDs (explicit disambiguation); exactly one match -> its ID. -/
def resolvePerformance (cohort : List SummaryRow) (name : String) : Resolution :=
  match matchingStudents cohort name with
  | [] => Resolution.notFound
  | [r] => Resolution.resolved r.id
  | rs => Resolution.ambiguous (rs.map (fun r => r.id))

/-- The Attendance, Assignments and Remarks tabs' name resolution
(student.py lines 272, 339, 405):
`filtered_summary[filtered_summary['Name'] == name]['ID'].values[0]` — the
first matching row's ID; `values[0]` raises `IndexError` (modelled `none`)
when no row matches. -/
def resolveByFirst (cohort : List SummaryRow) (name : String) : Option String :=
  (matchingStudents cohort name).head?.map (fun r => r.id)

/-! ### Overview metrics (student.py lines 91-94) -/

/-- `len(filtered_summary)` shown as "Total Students" (line 91). -/
def totalStudents (cohort : List SummaryRow) : ℕ := cohort.length

/-- The `f"{x:.1f}"` one-decimal rendering of a number.  (Python rounds the
underlying binary float half-to-even; this exact-rational model rounds half
up — the theorems below use the formatter only as an opaque rendering of a
non-"N/A" value, never at a half-way point.) -/
def fmt1 (q : ℚ) : String :=
  let n : ℤ := ⌊q * 10 + 1 / 2⌋
  toString (n / 10) ++ "." ++ toString (n % 10)

/-- The "Average Score" metric (line 92):
`f"{filtered_summary['Average Score'].mean():.1f}" if not filtered_summary.empty else "N/A"`. -/
def averageScoreText (cohort : List SummaryRow) : String :=
  if cohort.isEmpty then "N/A"
  else fmt1 (ratMean (cohort.map (fun r => r.avgScore)))

/-- The "Average Attendance" metric (line 93): the mean attendance rate
scaled to a percentage, or "N/A" on an empty cohort. -/
def averageAttendanceText (cohort : List SummaryRow) : String :=
  if cohort.isEmpty then "N/A"
  else fmt1 (ratMean (cohort.map (fun r => r.attendanceRate)) * 100) ++ "%"

/-- The "Average Submission Rate" metric (line 94). -/
def averageSubmissionText (cohort : List SummaryRow) : String :=
  if cohort.isEmpty then "N/A"
  else fmt1 (ratMean (cohort.map (fun r => r.submissionRate)) * 100) ++ "%"

/-! ### Subject/Term score aggregator (student.py lines 164-179) -/

/-- `merged_scores` (line 164): the Score table inner-joined to the cohort's
ID column. -/
def mergedScores (scores : List ScoreRow) (cohort : List SummaryRow) :
    List ScoreRow :=
  innerJoinID (fun r => r.id) scores cohort

/-- `subject_scores` (line 166): `groupby('Subject')['Score'].mean()` — one
entry per sorted distinct Subject with the mean Score of its rows. -/
def subjectScores (rows : List ScoreRow) : List (String × ℚ) :=
  (uniqueSorted strLe (rows.map (fun r => r.subject))).map (fun s =>
    (s, ratMean ((rows.filter (fun r => r.subject = s)).map (fun r => r.score))))

/-- `term_scores` (line 179): `groupby(['Subject', 'Term'])['Score'].mean()`
— one entry per sorted distinct (Subject, Term) pair with the mean Score of
its rows. -/
def termScores (rows : List ScoreRow) : List (String × String × ℚ) :=
  (uniqueSorted pairLe (rows.map (fun r => (r.subject, r.term)))).map (fun k =>
    (k.1, k.2,
      ratMean ((rows.filter (fun r => (r.subject, r.term) = k)).map
        (fun r => r.score))))

/-- Row count of one (Subject, Term) group, as a rational weight. -/
def termCount (rows : List ScoreRow) (s t : String) : ℚ :=
  ((rows.filter (fun r => (r.subject, r.term) = (s, t))).length : ℚ)

/-- The §8 reconciliation computation: the `term_scores` entries of one
Subject re-aggregated to a single mean, each term mean weighted by its
group's row count. -/
def reaggregatedSubjectMean (rows : List ScoreRow) (s : String) : ℚ :=
  let entries := (termScores rows).filter (fun e => e.1 = s)
  (entries.map (fun e => termCount rows s e.2.1 * e.2.2)).sum /
    (entries.map (fun e => termCount rows s e.2.1)).sum

/-! ### Assignment aggregator (student.py lines 300-321) -/

/-- The sorted distinct Subject values of an assignment table: the key list
of `groupby('Subject')`. -/
def assignmentSubjects (rows : List AssignmentRow) : List String :=
  uniqueSorted strLe (rows.map (fun r => r.subject))

/-- `completion_rate` (student.py lines 302-305):
`completed_assignments` is `groupby('Subject').size()` of the rows with
`Submitted == True`, `total_assignments` is `groupby('Subject').size()` of all
joined rows, and `completed_assignments / total_assignments * 100` aligns the
two series on the union of their (sorted) indices — a Subject present in the
total but absent from the completed series gets value NaN, modelled `none`. -/
def completionRate (joined : List AssignmentRow) : List (String × Option ℚ) :=
  let submittedRows := joined.filter (fun r => r.submitted)
  (assignmentSubjects joined).map (fun s =>
    (s,
      if s ∈ assignmentSubjects submittedRows then
        some ((((submittedRows.filter (fun r => r.subject = s)).length : ℚ) /
          ((joined.filter (fun r => r.subject = s)).length : ℚ)) * 100)
      else none))

/-- `upcoming` (student.py line 319):
`filtered_assignments[filtered_assignments['Deadline'] >= datetime.now()]`.
In pandas a NaT deadline compares as False against any timestamp, so a row
whose Deadline failed to parse never satisfies the mask. -/
def upcomingRows (joined : List AssignmentRow) (now : ℕ) : List AssignmentRow :=
  joined.filter (fun r =>
    match r.deadline with
    | none => false
    | some d => decide (now ≤ d))

/-! ### Attendance trend aggregator (student.py lines 250-254) -/

/-- Decimal rendering of a number padded to two digits (`strftime` month). -/
def pad2 (n : ℕ) : String := if n < 10 then "0" ++ toString n else toString n

/-- Decimal rendering of a number padded to four digits (`strftime` year). -/
def pad4 (n : ℕ) : String :=
  if n < 10 then "000" ++ toString n
  else if n < 100 then "00" ++ toString n
  else if n < 1000 then "0" ++ toString n
  else toString n

/-- `Date.dt.strftime('%Y-%m')` (student.py line 252) on a parsed date. -/
def monthKey (d : ℕ × ℕ × ℕ) : String := pad4 d.1 ++ "-" ++ pad2 d.2.1

/-- `monthly_attendance` (student.py lines 250-254).  The joined table is
guarded by `if not filtered_attendance.empty`; rows whose Date is NaT get a
NaN month key and are dropped by `groupby(['Month', 'Present'])`.  After
`.size().unstack().fillna(0)`, the frame's columns are exactly the Present
values occurring among the dated rows, so the lookups
`monthly_attendance[True]` and `monthly_attendance[False]` raise `KeyError`
(modelled `none`) unless both a Present and an Absent observation exist;
otherwise each observed month gets rate `t / (t + f)`. -/
def monthlyAttendance (joined : List AttendanceRow) :
    Option (List (String × ℚ)) :=
  if joined.isEmpty then some []
  else
    let dated := joined.filterMap (fun r =>
      r.date.map (fun d => (monthKey d, r.present)))
    if dated.any (fun p => p.2) && dated.any (fun p => !p.2) then
      some ((uniqueSorted strLe (dated.map (fun p => p.1))).map (fun mo =>
        let t := ((dated.filter (fun p => decide (p.1 = mo) && p.2)).length : ℚ)
        let f := ((dated.filter (fun p => decide (p.1 = mo) && !p.2)).length : ℚ)
        (mo, t / (t + f))))
    else none

/-! ### CSV export of the filtered cohort (student.py lines 436-444)

`filtered_summary.to_csv(index=False)` writes a header record and one record
per cohort row, each record terminated by a newline; under the default
QUOTE_MINIMAL policy a field is quoted iff it contains the delimiter, the
quote character or a line-terminator character, and quote characters inside
a quoted field are doubled.  Re-parsing follows the same grammar. -/

/-- QUOTE_MINIMAL test: must the field be quoted? -/
def needsQuote (s : List Char) : Bool :=
  s.any (fun c => c = ',' || c = '"' || c = '\n' || c = '\r')

/-- Double every quote character (the CSV escape inside a quoted field). -/
def escQuotes : List Char → List Char
  | [] => []
  | c :: t => if c = '"' then '"' :: '"' :: escQuotes t else c :: escQuotes t

/-- One CSV field as written under QUOTE_MINIMAL. -/
def encodeField (s : List Char) : List Char :=
  if needsQuote s then '"' :: (escQuotes s ++ ['"']) else s

/-- One CSV record: the encoded fields joined by commas. -/
def encodeRecord : List (List Char) → List Char
  | [] => []
  | [f] => encodeField f
  | f :: g :: fs => encodeField f ++ ',' :: encodeRecord (g :: fs)

/-- A whole CSV text: every record, the header included, is terminated by
the line terminator, as `to_csv` writes it. -/
def encodeCsv : List (List (List Char)) → List Char
  | [] => []
  | r :: rs => encodeRecord r ++ '\n' :: encodeCsv rs

/-- CSV reading automaton.  State: inside-quotes flag, characters of the
current field, fields of the current record, completed records.  A quote
opens a quoted field only at the start of a field; inside quotes a doubled
quote is a literal quote and a single quote closes the field. -/
def runCsv : Bool → List Char → List (List Char) → List (List (List Char)) →
    List Char → List (List (List Char))
  | _, field, record, rows, [] =>
    if field = [] ∧ record = [] then rows else rows ++ [record ++ [field]]
  | true, field, record, rows, c :: rest =>
    if c = '"' then
      match rest with
      | [] => runCsv false field record rows []
      | c2 :: rest2 =>
        if c2 = '"' then runCsv true (field ++ ['"']) record rows rest2
        else runCsv false field record rows (c2 :: rest2)
    else runCsv true (field ++ [c]) record rows rest
  | false, field, record, rows, c :: rest =>
    if c = ',' then runCsv false [] (record ++ [field]) rows rest
    else if c = '\n' then runCsv false [] [] (rows ++ [record ++ [field]]) rest
    else if c = '"' ∧ field = [] then runCsv true field record rows rest
    else runCsv false (field ++ [c]) record rows rest

/-- Parse a CSV text into its records of fields. -/
def parseCsv (s : List Char) : List (List (List Char)) :=
  runCsv false [] [] [] s

/-- The character of a decimal digit. -/
def digitChar (d : ℕ) : Char := Char.ofNat (48 + d)

/-- Big-endian decimal digit characters of a number ("0" for zero). -/
def natDigits (n : ℕ) : List Char :=
  if n = 0 then ['0'] else ((Nat.digits 10 n).map digitChar).reverse

/-- Is the character a decimal digit? -/
def isDigitChar (c : Char) : Bool :=
  decide ('0' ≤ c) && decide (c ≤ '9')

/-- Value of a big-endian string of digit characters (leading zeros are
immaterial). -/
def digitsVal (l : List Char) : ℕ :=
  l.foldl (fun a c => 10 * a + (c.toNat - 48)) 0

/-- Pad with leading zero characters to at least the given length. -/
def padZeros (n : ℕ) (s : List Char) : List Char :=
  List.replicate (n - s.length) '0' ++ s

/-- An exact decimal number m × 10^(-e): the form taken by the summary
table's numeric cells (fractions in [0, 1] and percentages in [0, 100] with
finitely many decimals, as loaded from CSV). -/
structure Dec where
  m : ℕ
  e : ℕ
deriving DecidableEq

/-- Decimal rendering of a `Dec`: the digits of `m` with a decimal point
`e` places from the right (a plain integer numeral when `e = 0`). -/
def renderDec (d : Dec) : List Char :=
  if d.e = 0 then natDigits d.m
  else
    let s := padZeros (d.e + 1) (natDigits d.m)
    s.take (s.length - d.e) ++ '.' :: s.drop (s.length - d.e)

/-- Split a cell at its first decimal point, if any. -/
def splitDot : List Char → List Char × Option (List Char)
  | [] => ([], none)
  | c :: t =>
    if c = '.' then ([], some t)
    else ((splitDot t).1.cons c, (splitDot t).2)

/-- Parse a decimal cell back into a `Dec`. -/
def parseDec (l : List Char) : Option Dec :=
  match splitDot l with
  | (ds, none) =>
    if ds ≠ [] ∧ ds.all isDigitChar then some ⟨digitsVal ds, 0⟩ else none
  | (is, some fs) =>
    if is ≠ [] ∧ fs ≠ [] ∧ is.all isDigitChar ∧ fs.all isDigitChar then
      some ⟨digitsVal (is ++ fs), fs.length⟩
    else none

/-- The value of a `Dec` as a rational, linking the export cells to the
numeric model of the summary columns. -/
def Dec.val (d : Dec) : ℚ := (d.m : ℚ) / 10 ^ d.e

/-- A summary row as it enters the export: text columns plus the three
numeric columns as exact decimals. -/
structure SummaryCells where
  id : String
  name : String
  classVal : String
  sectionVal : String
  gender : String
  avgScore : Dec
  attendanceRate : Dec
  submissionRate : Dec
deriving DecidableEq

/-- The header record `to_csv` writes for the summary table. -/
def summaryHeader : List (List Char) :=
  ["ID".data, "Name".data, "Class".data, "Section".data, "Gender".data,
   "Average Score".data, "Attendance Rate".data, "Submission Rate".data]

/-- The cell strings of one exported cohort row. -/
def rowCells (r : SummaryCells) : List (List Char) :=
  [r.id.data, r.name.data, r.classVal.data, r.sectionVal.data, r.gender.data,
   renderDec r.avgScore, renderDec r.attendanceRate, renderDec r.submissionRate]

/-- `csv = filtered_summary.to_csv(index=False)` (student.py line 438):
header plus one record per cohort member; no other table is consulted. -/
def exportCsv (cohort : List SummaryCells) : List Char :=
  encodeCsv (summaryHeader :: cohort.map rowCells)

/-- Interpret one parsed record under the summary schema: five text columns
kept as text (the ID stays a string) and three numeric columns parsed as
decimals. -/
def decodeRecord : List (List Char) → Option SummaryCells
  | [i, n, c, se, g, a, ar, sr] =>
    match parseDec a, parseDec ar, parseDec sr with
    | some av, some arv, some srv =>
      some ⟨String.mk i, String.mk n, String.mk c, String.mk se,
        String.mk g, av, arv, srv⟩
    | _, _, _ => none
  | _ => none

/-- Decode every parsed record, failing if any record fails. -/
def decodeRows : List (List (List Char)) → Option (List SummaryCells)
  | [] => some []
  | r :: rs =>
    match decodeRecord r, decodeRows rs with
    | some x, some xs => some (x :: xs)
    | _, _ => none

/-- Re-parse an exported text: split it by the CSV grammar, check the
header record, and interpret every remaining record as a summary row. -/
def reparse (s : List Char) : Option (List SummaryCells) :=
  match parseCsv s with
  | [] => none
  | h :: rows => if h = summaryHeader then decodeRows rows else none

/-! ### Concrete tables used to evaluate the code at failing inputs -/

/-- Summary table with classes 10 and 11 whose section sets are disjoint. -/
def summaryTwoClasses : List SummaryRow :=
  [⟨"S1", "Asha", "10", "A", "F", 80, 1, 1⟩,
   ⟨"S2", "Ravi", "11", "B", "M", 70, 1, 1⟩]

/-- Cohort in which two distinct students share the name "A. Kumar". -/
def dupNameCohort : List SummaryRow :=
  [⟨"S1", "A. Kumar", "10", "A", "M", 80, 1, 1⟩,
   ⟨"S2", "A. Kumar", "10", "B", "F", 90, 1, 1⟩]

/-- One-student cohort used when evaluating the detail-table joins. -/
def cohortS1 : List SummaryRow :=
  [⟨"S1", "Asha", "10", "A", "F", 80, 1, 1⟩]

/-- One joined assignment row for Subject "Math", not submitted. -/
def asgUnsubmitted : List AssignmentRow :=
  [⟨"S1", "HW1", "Math", some 100, false, 0⟩]

/-- One joined attendance observation, Present = true (a perfectly attended
cohort). -/
def attAllPresent : List AttendanceRow :=
  [⟨"S1", some (2024, 1, 5), true⟩]

/-- One assignment row whose Deadline failed to parse (NaT). -/
def asgNaT : List AssignmentRow :=
  [⟨"S1", "HW1", "Math", none, false, 0⟩]

/-- Score table with one subject spread over two terms. -/
def scoresTwoTerms : List ScoreRow :=
  [⟨"S1", "Math", "T1", 80⟩, ⟨"S1", "Math", "T2", 90⟩]

/-- A one-row cohort for the export round-trip, with a comma inside the
Name (so the field is quoted) and decimal cells 82.5, 0.9 and 1. -/
def cohortExport : List SummaryCells :=
  [⟨"7", "Kumar, A.", "10", "A", "F", ⟨825, 1⟩, ⟨9, 1⟩, ⟨1, 0⟩⟩]

/-! ### Theorems -/

/-! #### Helper lemmas about the sorting and grouping combinators -/

theorem insertLe_perm (le : α → α → Bool) (a : α) :
    ∀ l : List α, (insertLe le a l).Perm (a :: l) := by
  intro l
  induction l with
  | nil => simp [insertLe]
  | cons b bs ih =>
      rw [insertLe]
      split
      · exact List.Perm.refl _
      · exact (ih.cons b).trans (List.Perm.swap a b bs)

theorem sortLe_perm (le : α → α → Bool) (l : List α) :
    (sortLe le l).Perm l := by
  induction l with
  | nil => simp [sortLe]
  | cons a t ih =>
      have : sortLe le (a :: t) = insertLe le a (sortLe le t) := rfl
      rw [this]
      exact (insertLe_perm le a (sortLe le t)).trans (ih.cons a)

theorem mem_uniqueSorted [DecidableEq α] (le : α → α → Bool) (l : List α)
    (a : α) : a ∈ uniqueSorted le l ↔ a ∈ l := by
  rw [uniqueSorted, (sortLe_perm le l.dedup).mem_iff, List.mem_dedup]

theorem nodup_uniqueSorted [DecidableEq α] (le : α → α → Bool) (l : List α) :
    (uniqueSorted le l).Nodup := by
  rw [uniqueSorted, (sortLe_perm le l.dedup).nodup_iff]
  exact List.nodup_dedup l

/-- Partitioning a list by a key function along a duplicate-free key list
that covers it yields, flattened, a permutation of the list. -/
theorem partition_flatten_perm {κ α : Type} [DecidableEq κ] (f : α → κ) :
    ∀ (keys : List κ) (l : List α), keys.Nodup → (∀ x ∈ l, f x ∈ keys) →
      ((keys.map (fun k => l.filter (fun x => f x = k))).flatten).Perm l := by
  intro keys
  induction keys with
  | nil =>
    intro l _ hcov
    cases l with
    | nil => simp
    | cons a t => exact absurd (hcov a (by simp)) (by simp)
  | cons k ks ih =>
    intro l hnd hcov
    have hk : k ∉ ks := by simp_all
    have hnds : ks.Nodup := hnd.of_cons
    have hsplit : (l.filter (fun x => f x = k) ++
        l.filter (fun x => ¬ (f x = k))).Perm l := by
      simpa using List.filter_append_perm (fun x => decide (f x = k)) l
    have htail : ks.map (fun k' => l.filter (fun x => f x = k')) =
        ks.map (fun k' =>
          (l.filter (fun x => ¬ (f x = k))).filter (fun x => f x = k')) := by
      refine List.map_congr_left ?_
      intro k' hk'
      have hne : k' ≠ k := by rintro rfl; exact hk hk'
      rw [List.filter_filter]
      refine List.filter_congr ?_
      intro x _
      by_cases hx : f x = k'
      · have hxk : ¬ (f x = k) := by rw [hx]; exact hne
        simp [hx, hxk]
        exact hne
      · simp [hx]
    have hcov' : ∀ x ∈ l.filter (fun x => ¬ (f x = k)), f x ∈ ks := by
      intro x hx
      rw [List.mem_filter] at hx
      have := hcov x hx.1
      simp_all
    have hrec := ih (l.filter (fun x => ¬ (f x = k))) hnds hcov'
    have hflat : ((k :: ks).map (fun k' => l.filter (fun x => f x = k'))).flatten =
        l.filter (fun x => f x = k) ++
          (ks.map (fun k' => (l.filter (fun x => ¬ (f x = k))).filter
            (fun x => f x = k'))).flatten := by
      rw [List.map_cons, List.flatten_cons, htail]
    rw [hflat]
    exact (hrec.append_left _).trans hsplit

/-- Summing a numeric projection group-by-group over a covering,
duplicate-free key list gives the total sum. -/
theorem partition_sum {κ α : Type} [DecidableEq κ] (f : α → κ) (g : α → ℚ)
    (keys : List κ) (l : List α) (hnd : keys.Nodup)
    (hcov : ∀ x ∈ l, f x ∈ keys) :
    (keys.map (fun k => ((l.filter (fun x => f x = k)).map g).sum)).sum =
      (l.map g).sum := by
  have h1 := ((partition_flatten_perm f keys l hnd hcov).map g).sum_eq
  rw [List.map_flatten, List.map_map, List.sum_flatten, List.map_map] at h1
  simpa [Function.comp] using h1

/-- Group sizes over a covering, duplicate-free key list add up to the
total length. -/
theorem partition_length {κ α : Type} [DecidableEq κ] (f : α → κ)
    (keys : List κ) (l : List α) (hnd : keys.Nodup)
    (hcov : ∀ x ∈ l, f x ∈ keys) :
    (keys.map (fun k => (l.filter (fun x => f x = k)).length)).sum =
      l.length := by
  have h1 := (partition_flatten_perm f keys l hnd hcov).length_eq
  rw [List.length_flatten, List.map_map] at h1
  simpa [Function.comp] using h1

/-- Core of the §8 reconciliation: within any score table, the term-weighted
re-aggregation of the (Subject, Term) group means equals the direct Subject
group mean, for every Subject entry of `subjectScores`. -/
theorem reaggregated_eq_subjectMean (rows : List ScoreRow) (s : String) (m : ℚ)
    (hmem : (s, m) ∈ subjectScores rows) :
    reaggregatedSubjectMean rows s = m := by
  rw [subjectScores, List.mem_map] at hmem
  obtain ⟨a, ha, heq⟩ := hmem
  simp only [Prod.mk.injEq] at heq
  obtain ⟨rfl, rfl⟩ := heq
  have hsmem : a ∈ rows.map (fun r => r.subject) := (mem_uniqueSorted _ _ _).1 ha
  set S := rows.filter (fun r => r.subject = a) with hS
  obtain ⟨r0, hr0, hr0s⟩ := List.mem_map.1 hsmem
  have hr0S : r0 ∈ S := by
    rw [hS, List.mem_filter]
    exact ⟨hr0, by simp [hr0s]⟩
  have hSlen : (0 : ℚ) < (S.length : ℚ) := by
    exact_mod_cast List.length_pos.2 (List.ne_nil_of_mem hr0S)
  set pairs := uniqueSorted pairLe (rows.map (fun r => (r.subject, r.term)))
    with hpairs
  set ts := pairs.filter (fun k => k.1 = a) with hts
  set terms := ts.map (fun k => k.2) with hterms
  have hts1 : ∀ k ∈ ts, k.1 = a := by
    intro k hk
    rw [hts, List.mem_filter] at hk
    simpa using hk.2
  have htsnd : ts.Nodup := by
    rw [hts]
    exact (nodup_uniqueSorted _ _).filter _
  have htermnd : terms.Nodup := by
    rw [hterms]
    refine List.Nodup.map_on ?_ htsnd
    intro x hx y hy hxy
    exact Prod.ext ((hts1 x hx).trans (hts1 y hy).symm) hxy
  have hcovS : ∀ x ∈ S, x.term ∈ terms := by
    intro x hx
    rw [hS, List.mem_filter] at hx
    have hx2 : x.subject = a := by simpa using hx.2
    have hpair : (a, x.term) ∈ pairs := by
      rw [hpairs, mem_uniqueSorted]
      exact List.mem_map.2 ⟨x, hx.1, by rw [hx2]⟩
    have hmem2 : (a, x.term) ∈ ts := by
      rw [hts, List.mem_filter]
      exact ⟨hpair, by simp⟩
    rw [hterms]
    exact List.mem_map.2 ⟨(a, x.term), hmem2, rfl⟩
  have hgroup : ∀ t : String,
      rows.filter (fun r => (r.subject, r.term) = (a, t)) =
        S.filter (fun r => r.term = t) := by
    intro t
    rw [hS, List.filter_filter]
    refine List.filter_congr ?_
    intro r _
    by_cases h1 : r.subject = a <;> by_cases h2 : r.term = t <;>
      simp [h1, h2, Prod.ext_iff]
  have hgrouplen : ∀ k ∈ ts,
      (0 : ℚ) < ((S.filter (fun r => r.term = k.2)).length : ℚ) := by
    intro k hk
    have hk1 : k.1 = a := hts1 k hk
    rw [hts, List.mem_filter] at hk
    have hkp : k ∈ rows.map (fun r => (r.subject, r.term)) := by
      rw [hpairs] at hk
      exact (mem_uniqueSorted _ _ _).1 hk.1
    obtain ⟨r, hr, hrk⟩ := List.mem_map.1 hkp
    have hrsub : r.subject = k.1 := congrArg Prod.fst hrk
    have hrterm : r.term = k.2 := congrArg Prod.snd hrk
    have hrmem : r ∈ S.filter (fun r => r.term = k.2) := by
      rw [hS, List.mem_filter, List.mem_filter]
      exact ⟨⟨hr, by simp [hrsub, hk1]⟩, by simp [hrterm]⟩
    exact_mod_cast List.length_pos.2 (List.ne_nil_of_mem hrmem)
  have hentries : (termScores rows).filter (fun e => e.1 = a) =
      ts.map (fun k => (k.1, k.2,
        ratMean ((rows.filter (fun r => (r.subject, r.term) = k)).map
          (fun r => r.score)))) := by
    rw [termScores, List.filter_map]
    rfl
  have hkfilter : ∀ k ∈ ts,
      rows.filter (fun r => (r.subject, r.term) = k) =
        S.filter (fun r => r.term = k.2) := by
    intro k hk
    have hk1 : k = (a, k.2) := Prod.ext (hts1 k hk) rfl
    calc rows.filter (fun r => (r.subject, r.term) = k)
        = rows.filter (fun r => (r.subject, r.term) = (a, k.2)) := by
          refine List.filter_congr ?_
          intro r _
          rw [← hk1]
      _ = S.filter (fun r => r.term = k.2) := hgroup k.2
  simp only [reaggregatedSubjectMean]
  rw [hentries, List.map_map, List.map_map]
  have hnum : ts.map ((fun e : String × String × ℚ =>
      termCount rows a e.2.1 * e.2.2) ∘ (fun k => (k.1, k.2,
        ratMean ((rows.filter (fun r => (r.subject, r.term) = k)).map
          (fun r => r.score))))) =
      ts.map (fun k =>
        ((S.filter (fun r => r.term = k.2)).map (fun r => r.score)).sum) := by
    refine List.map_congr_left ?_
    intro k hk
    show termCount rows a k.2 *
        ratMean ((rows.filter (fun r => (r.subject, r.term) = k)).map
          (fun r => r.score)) = _
    rw [hkfilter k hk, termCount, hgroup k.2, ratMean, List.length_map,
      mul_comm, div_mul_cancel₀ _ (ne_of_gt (hgrouplen k hk))]
  have hden : ts.map ((fun e : String × String × ℚ =>
      termCount rows a e.2.1) ∘ (fun k => (k.1, k.2,
        ratMean ((rows.filter (fun r => (r.subject, r.term) = k)).map
          (fun r => r.score))))) =
      ts.map (fun k =>
        (((S.filter (fun r => r.term = k.2)).length : ℚ))) := by
    refine List.map_congr_left ?_
    intro k hk
    show termCount rows a k.2 = _
    rw [termCount, hgroup k.2]
  rw [hnum, hden]
  have hnum2 : (ts.map (fun k =>
      ((S.filter (fun r => r.term = k.2)).map (fun r => r.score)).sum)).sum =
      (S.map (fun r => r.score)).sum := by
    have h := partition_sum (fun r : ScoreRow => r.term) (fun r => r.score)
      terms S htermnd hcovS
    rw [hterms, List.map_map] at h
    simpa [Function.comp] using h
  have hden2 : (ts.map (fun k =>
      (((S.filter (fun r => r.term = k.2)).length : ℚ)))).sum =
      (S.length : ℚ) := by
    have h := partition_length (fun r : ScoreRow => r.term) terms S htermnd hcovS
    rw [hterms, List.map_map] at h
    have hc := congrArg (fun n : ℕ => (n : ℚ)) h
    simp only at hc
    rw [Nat.cast_list_sum, List.map_map] at hc
    simpa [Function.comp] using hc
  rw [hnum2, hden2, ratMean, List.length_map]

/-- C1: for every summary table and class/section/gender selectors, the
`filtered_summary` cohort is a sublist (hence subset) of the input; a row is
in the cohort iff it is an input row matching every selector that is not
"All" exactly (string equality, case-sensitive), so "All" imposes no
constraint — in particular all-"All" is the identity and the result is a
plain (possibly empty) list, never an error. -/
theorem applyFilters_spec (summary : List SummaryRow)
    (classFilter sectionFilter genderFilter : String) :
    (applyFilters summary classFilter sectionFilter genderFilter).Sublist summary ∧
    (∀ r : SummaryRow,
      r ∈ applyFilters summary classFilter sectionFilter genderFilter ↔
        r ∈ summary ∧
        (classFilter ≠ "All" → r.classVal = classFilter) ∧
        (sectionFilter ≠ "All" → r.sectionVal = sectionFilter) ∧
        (genderFilter ≠ "All" → r.gender = genderFilter)) ∧
    applyFilters summary "All" "All" "All" = summary := by
  refine ⟨?_, ?_, by simp [applyFilters]⟩
  · unfold applyFilters
    split <;> split <;> split <;> simp_all
  · intro r
    unfold applyFilters
    split <;> split <;> split <;> simp_all [List.mem_filter] <;> tauto

/-- Closed instance of `applyFilters_spec` at a concrete table and selectors
(the §8 example scenario: Class "10", Section "A", Gender "All"). -/
theorem applyFilters_spec_witness :
    (applyFilters summaryTwoClasses "10" "A" "All").Sublist summaryTwoClasses ∧
    (∀ r : SummaryRow,
      r ∈ applyFilters summaryTwoClasses "10" "A" "All" ↔
        r ∈ summaryTwoClasses ∧
        ("10" ≠ "All" → r.classVal = "10") ∧
        ("A" ≠ "All" → r.sectionVal = "A") ∧
        ("All" ≠ "All" → r.gender = "All")) ∧
    applyFilters summaryTwoClasses "All" "All" "All" = summaryTwoClasses :=
  applyFilters_spec summaryTwoClasses "10" "A" "All"

/-- C2 (code bug): with summary rows (Class "10", Section "A") and
(Class "11", Section "B"), the offered options for class "11" are exactly
["All", "B"]; changing the class to "11" while Section "A" is still selected
makes the selectbox `index` computation `available_sections.index("A")`
raise `ValueError` (here: `none`) instead of resetting the section to
"All". -/
theorem sectionIndex_valueError :
    availableSections summaryTwoClasses "11" = ["All", "B"] ∧
    sectionIndex "A" (availableSections summaryTwoClasses "11") = none := by
  constructor <;> decide

/-- C3 (code bug): on a cohort where "A. Kumar" names two students, the
Performance tab resolves to an explicit two-element disambiguation set, but
the Attendance/Assignments/Remarks tabs' `['ID'].values[0]` resolution
silently yields the first matching ID "S1" even though the full match set is
{"S1", "S2"}. -/
theorem resolveByFirst_silent_pick :
    resolvePerformance dupNameCohort "A. Kumar" =
      Resolution.ambiguous ["S1", "S2"] ∧
    (matchingStudents dupNameCohort "A. Kumar").map (fun r => r.id) =
      ["S1", "S2"] ∧
    resolveByFirst dupNameCohort "A. Kumar" = some "S1" := by
  refine ⟨?_, ?_, ?_⟩ <;> decide

/-- C4 (code bug): a Subject all of whose joined assignment rows are
unsubmitted is reported with value NaN (`none`) — the completed-side
`groupby` has no entry for it and pandas index alignment fills the quotient
with NaN — not with the 0 % the completion-rate formula prescribes. -/
theorem completionRate_nan_on_zero_submitted :
    completionRate (innerJoinID (fun a => a.id) asgUnsubmitted cohortS1) =
      [("Math", none)] := by
  decide

/-- C7 (code bug): with a non-empty joined attendance table all of whose
observations are Present, the trend computation raises `KeyError: False`
(modelled `none`) at `monthly_attendance[False]`, instead of never
raising. -/
theorem monthlyAttendance_keyError :
    monthlyAttendance (innerJoinID (fun a => a.id) attAllPresent cohortS1) =
      none := by
  decide

/-- C8: over the score table inner-joined to any cohort, the (Subject, Term)
group means of `term_scores`, re-aggregated to a Subject alone as a mean
weighted by each term group's row count, equal the direct Subject group mean
of `subject_scores` — exactly, so in particular within any floating-point
tolerance. -/
theorem groupMean_reconciles (scores : List ScoreRow)
    (cohort : List SummaryRow) (s : String) (m : ℚ)
    (hmem : (s, m) ∈ subjectScores (mergedScores scores cohort)) :
    reaggregatedSubjectMean (mergedScores scores cohort) s = m :=
  reaggregated_eq_subjectMean (mergedScores scores cohort) s m hmem

/-- Closed instance of `groupMean_reconciles`: subject "Math" with term
means 80 and 90 (one row each) re-aggregates to the direct mean 85. -/
theorem groupMean_reconciles_witness :
    ("Math", (85 : ℚ)) ∈ subjectScores (mergedScores scoresTwoTerms cohortS1) ∧
    reaggregatedSubjectMean (mergedScores scoresTwoTerms cohortS1) "Math" =
      85 := by
  have hmem : ("Math", (85 : ℚ)) ∈
      subjectScores (mergedScores scoresTwoTerms cohortS1) := by
    simp [subjectScores, mergedScores, innerJoinID, scoresTwoTerms, cohortS1,
      uniqueSorted, sortLe, insertLe, ratMean, List.dedup]
    norm_num
  exact ⟨hmem, groupMean_reconciles scoresTwoTerms cohortS1 "Math" 85 hmem⟩

/-- The one-decimal rendering of a zero mean. -/
theorem fmt1_zero : fmt1 0 = "0.0" := by
  have h : ⌊(0 : ℚ) * 10 + 1 / 2⌋ = (0 : ℤ) := by norm_num
  simp only [fmt1, h]
  decide

/-- C6: on the empty cohort each of the three overview means is reported as
the literal "N/A" — a value distinct from the rendering of a zero mean —
while the student count is 0; on a non-empty cohort each reported mean is
the rendering of the arithmetic mean (column sum over row count) of its
column. -/
theorem overviewMetrics_spec (cohort : List SummaryRow) :
    (cohort = [] →
      averageScoreText cohort = "N/A" ∧
      averageAttendanceText cohort = "N/A" ∧
      averageSubmissionText cohort = "N/A" ∧
      totalStudents cohort = 0 ∧
      "N/A" ≠ fmt1 0) ∧
    (cohort ≠ [] →
      averageScoreText cohort =
        fmt1 ((cohort.map (fun r => r.avgScore)).sum / (cohort.length : ℚ)) ∧
      averageAttendanceText cohort =
        fmt1 ((cohort.map (fun r => r.attendanceRate)).sum /
          (cohort.length : ℚ) * 100) ++ "%" ∧
      averageSubmissionText cohort =
        fmt1 ((cohort.map (fun r => r.submissionRate)).sum /
          (cohort.length : ℚ) * 100) ++ "%" ∧
      totalStudents cohort = cohort.length) := by
  constructor
  · rintro rfl
    refine ⟨rfl, rfl, rfl, rfl, ?_⟩
    rw [fmt1_zero]
    decide
  · intro hne
    have hniE : cohort.isEmpty = false := by
      cases cohort with
      | nil => exact absurd rfl hne
      | cons a t => rfl
    refine ⟨?_, ?_, ?_, rfl⟩ <;>
      simp [averageScoreText, averageAttendanceText, averageSubmissionText,
        hniE, ratMean, List.length_map]

/-- Closed instance of `overviewMetrics_spec` at the empty cohort and at a
one-student cohort. -/
theorem overviewMetrics_witness :
    (averageScoreText [] = "N/A" ∧
      averageAttendanceText [] = "N/A" ∧
      averageSubmissionText [] = "N/A" ∧
      totalStudents [] = 0 ∧
      "N/A" ≠ fmt1 0) ∧
    (averageScoreText cohortS1 =
      fmt1 ((cohortS1.map (fun r => r.avgScore)).sum /
        (cohortS1.length : ℚ)) ∧
      averageAttendanceText cohortS1 =
        fmt1 ((cohortS1.map (fun r => r.attendanceRate)).sum /
          (cohortS1.length : ℚ) * 100) ++ "%" ∧
      averageSubmissionText cohortS1 =
        fmt1 ((cohortS1.map (fun r => r.submissionRate)).sum /
          (cohortS1.length : ℚ) * 100) ++ "%" ∧
      totalStudents cohortS1 = cohortS1.length) :=
  ⟨(overviewMetrics_spec []).1 rfl,
    (overviewMetrics_spec cohortS1).2 (by simp [cohortS1])⟩

/-- C10: a joined assignment row appears in the upcoming-deadlines view iff
its Deadline parsed to a concrete date that is ≥ the current time; in
particular a row whose Deadline was coerced to the unknown-date marker (NaT)
is never listed and causes no error. -/
theorem upcoming_excludes_unparsed (assignments : List AssignmentRow)
    (cohort : List SummaryRow) (now : ℕ) :
    ∀ r : AssignmentRow,
      r ∈ upcomingRows (innerJoinID (fun a => a.id) assignments cohort) now ↔
        r ∈ innerJoinID (fun a => a.id) assignments cohort ∧
        ∃ d, r.deadline = some d ∧ now ≤ d := by
  intro r
  rw [upcomingRows, List.mem_filter]
  cases h : r.deadline <;> simp [h]

/-! #### CSV round-trip lemmas -/

theorem runCsv_unquoted : ∀ (f : List Char), needsQuote f = false →
    ∀ (field : List Char) record rows rest,
      runCsv false field record rows (f ++ rest) =
        runCsv false (field ++ f) record rows rest := by
  intro f
  induction f with
  | nil => intro _ field record rows rest; simp
  | cons c t ih =>
    intro hf field record rows rest
    rw [needsQuote, List.any_cons, Bool.or_eq_false_iff] at hf
    obtain ⟨hc, ht⟩ := hf
    have ht' : needsQuote t = false := by rw [needsQuote]; exact ht
    have h1 : ¬ (c = ',') := by intro h; subst h; simp at hc
    have h2 : ¬ (c = '"') := by intro h; subst h; simp at hc
    have h3 : ¬ (c = '\n') := by intro h; subst h; simp at hc
    calc runCsv false field record rows ((c :: t) ++ rest)
        = runCsv false (field ++ [c]) record rows (t ++ rest) := by
          rw [List.cons_append]
          conv_lhs => rw [runCsv.eq_def]
          simp [h1, h2, h3]
      _ = runCsv false ((field ++ [c]) ++ t) record rows rest :=
          ih ht' (field ++ [c]) record rows rest
      _ = runCsv false (field ++ (c :: t)) record rows rest := by
          rw [List.append_assoc, List.singleton_append]

theorem runCsv_quoted : ∀ (f : List Char) (field : List Char) record rows rest,
    runCsv true field record rows (escQuotes f ++ rest) =
      runCsv true (field ++ f) record rows rest := by
  intro f
  induction f with
  | nil => intro field record rows rest; simp [escQuotes]
  | cons c t ih =>
    intro field record rows rest
    by_cases hc : c = '"'
    · subst hc
      have he : escQuotes ('"' :: t) = '"' :: '"' :: escQuotes t := by
        simp [escQuotes]
      rw [he, List.cons_append, List.cons_append]
      conv_lhs => rw [runCsv.eq_def]
      simp
      rw [ih]
      rw [List.append_assoc, List.singleton_append]
    · have he : escQuotes (c :: t) = c :: escQuotes t := by
        simp [escQuotes, hc]
      rw [he, List.cons_append]
      conv_lhs => rw [runCsv.eq_def]
      simp [hc]
      rw [ih]
      rw [List.append_assoc, List.singleton_append]

theorem runCsv_closequote (field : List Char) (record : List (List Char))
    (rows : List (List (List Char))) :
    ∀ rest, rest.head? ≠ some '"' →
      runCsv true field record rows ('"' :: rest) =
        runCsv false field record rows rest := by
  intro rest h
  cases rest with
  | nil =>
    conv_lhs => rw [runCsv.eq_def]
    simp
  | cons c2 r2 =>
    have hc2 : ¬ (c2 = '"') := by simpa using h
    conv_lhs => rw [runCsv.eq_def]
    simp [hc2]

theorem runCsv_field (f : List Char) (record : List (List Char))
    (rows : List (List (List Char))) (rest : List Char)
    (h : rest.head? ≠ some '"') :
    runCsv false [] record rows (encodeField f ++ rest) =
      runCsv false f record rows rest := by
  rw [encodeField]
  by_cases hq : needsQuote f
  · rw [if_pos hq]
    have e1 : ('"' :: (escQuotes f ++ ['"'])) ++ rest =
        '"' :: (escQuotes f ++ ('"' :: rest)) := by simp
    rw [e1]
    conv_lhs => rw [runCsv.eq_def]
    simp
    rw [runCsv_quoted, List.nil_append]
    exact runCsv_closequote f record rows rest h
  · rw [if_neg hq]
    have h2 := runCsv_unquoted f (by simpa using hq) [] record rows rest
    simpa using h2

theorem runCsv_record : ∀ (fs : List (List Char)), fs ≠ [] →
    ∀ (record : List (List Char)) rows rest,
      runCsv false [] record rows (encodeRecord fs ++ '\n' :: rest) =
        runCsv false [] [] (rows ++ [record ++ fs]) rest := by
  intro fs
  induction fs with
  | nil => intro h; exact absurd rfl h
  | cons f gs ih =>
    intro _ record rows rest
    cases gs with
    | nil =>
      simp only [encodeRecord]
      rw [runCsv_field f record rows ('\n' :: rest) (by simp)]
      conv_lhs => rw [runCsv.eq_def]
      simp
    | cons g gs2 =>
      simp only [encodeRecord]
      have e1 : (encodeField f ++ ',' :: encodeRecord (g :: gs2)) ++
          '\n' :: rest =
          encodeField f ++
            (',' :: (encodeRecord (g :: gs2) ++ '\n' :: rest)) := by simp
      rw [e1, runCsv_field f record rows _ (by simp)]
      conv_lhs => rw [runCsv.eq_def]
      simp only [reduceIte]
      rw [ih (by simp) (record ++ [f]) rows rest]
      simp

theorem runCsv_csv : ∀ (table : List (List (List Char))),
    (∀ r ∈ table, r ≠ []) → ∀ rows,
      runCsv false [] [] rows (encodeCsv table) = rows ++ table := by
  intro table
  induction table with
  | nil => intro _ rows; simp [encodeCsv, runCsv]
  | cons r rs ih =>
    intro h rows
    simp only [encodeCsv]
    rw [runCsv_record r (h r (by simp)) [] rows (encodeCsv rs)]
    rw [List.nil_append]
    rw [ih (fun x hx => h x (by simp [hx])) (rows ++ [r])]
    simp

/-- Parsing inverts encoding for any table of records with at least one
field each. -/
theorem parseCsv_encodeCsv (table : List (List (List Char)))
    (h : ∀ r ∈ table, r ≠ []) : parseCsv (encodeCsv table) = table := by
  rw [parseCsv, runCsv_csv table h []]
  simp

theorem digitChar_props (d : ℕ) (hd : d < 10) :
    isDigitChar (digitChar d) = true ∧ (digitChar d).toNat - 48 = d ∧
      digitChar d ≠ '.' := by
  interval_cases d <;> refine ⟨by decide, by decide, by decide⟩

theorem digitsVal_append_singleton (xs : List Char) (c : Char) :
    digitsVal (xs ++ [c]) = 10 * digitsVal xs + (c.toNat - 48) := by
  rw [digitsVal, digitsVal, List.foldl_append]
  rfl

theorem digitsVal_rev_map (L : List ℕ) (hL : ∀ d ∈ L, d < 10) :
    digitsVal ((L.map digitChar).reverse) = Nat.ofDigits 10 L := by
  induction L with
  | nil => rfl
  | cons d L ih =>
    have hd : d < 10 := hL d (by simp)
    have hL' : ∀ x ∈ L, x < 10 := fun x hx => hL x (by simp [hx])
    rw [List.map_cons, List.reverse_cons, digitsVal_append_singleton, ih hL',
      Nat.ofDigits_cons, (digitChar_props d hd).2.1]
    ring

theorem digitsVal_natDigits (n : ℕ) : digitsVal (natDigits n) = n := by
  rw [natDigits]
  by_cases h : n = 0
  · rw [if_pos h, h]; decide
  · rw [if_neg h,
      digitsVal_rev_map _ (fun d hd => Nat.digits_lt_base (by norm_num) hd),
      Nat.ofDigits_digits]

theorem natDigits_are_digits (n : ℕ) :
    ∀ c ∈ natDigits n, isDigitChar c = true ∧ c ≠ '.' := by
  intro c hc
  rw [natDigits] at hc
  by_cases h : n = 0
  · rw [if_pos h] at hc
    simp at hc
    subst hc
    exact ⟨by decide, by decide⟩
  · rw [if_neg h, List.mem_reverse, List.mem_map] at hc
    obtain ⟨d, hd, rfl⟩ := hc
    have hd10 := Nat.digits_lt_base (by norm_num) hd
    exact ⟨(digitChar_props d hd10).1, (digitChar_props d hd10).2.2⟩

theorem natDigits_ne_nil (n : ℕ) : natDigits n ≠ [] := by
  rw [natDigits]
  by_cases h : n = 0
  · rw [if_pos h]; simp
  · rw [if_neg h]
    simp [Nat.digits_ne_nil_iff_ne_zero, h]

theorem digitsVal_replicate_zero (k : ℕ) (s : List Char) :
    digitsVal (List.replicate k '0' ++ s) = digitsVal s := by
  induction k with
  | zero => simp
  | succ k ih =>
    rw [List.replicate_succ, List.cons_append, digitsVal, List.foldl_cons]
    have h0 : (10 * 0 + ('0'.toNat - 48)) = 0 := by decide
    rw [h0]
    exact ih

theorem digitsVal_padZeros (n : ℕ) (s : List Char) :
    digitsVal (padZeros n s) = digitsVal s := by
  rw [padZeros]
  exact digitsVal_replicate_zero _ s

theorem padZeros_length (n : ℕ) (s : List Char) :
    (padZeros n s).length = max n s.length := by
  rw [padZeros]
  simp
  omega

theorem padZeros_digits (n : ℕ) (s : List Char)
    (h : ∀ c ∈ s, isDigitChar c = true ∧ c ≠ '.') :
    ∀ c ∈ padZeros n s, isDigitChar c = true ∧ c ≠ '.' := by
  intro c hc
  rw [padZeros, List.mem_append] at hc
  rcases hc with hc | hc
  · have hc0 : c = '0' := List.eq_of_mem_replicate hc
    subst hc0
    exact ⟨by decide, by decide⟩
  · exact h c hc

theorem splitDot_no_dot : ∀ (s : List Char), (∀ c ∈ s, c ≠ '.') →
    splitDot s = (s, none) := by
  intro s
  induction s with
  | nil => intro _; rfl
  | cons c t ih =>
    intro h
    rw [splitDot.eq_def]
    simp only
    rw [if_neg (h c (by simp)), ih (fun x hx => h x (by simp [hx]))]

theorem splitDot_append (I F : List Char) :
    (∀ c ∈ I, c ≠ '.') → splitDot (I ++ '.' :: F) = (I, some F) := by
  induction I with
  | nil =>
    intro _
    simp [splitDot]
  | cons c t ih =>
    intro h
    rw [List.cons_append, splitDot.eq_def]
    simp only
    rw [if_neg (h c (by simp)), ih (fun x hx => h x (by simp [hx]))]

theorem parseDec_renderDec (d : Dec) : parseDec (renderDec d) = some d := by
  obtain ⟨m, e⟩ := d
  rw [renderDec]
  by_cases he : e = 0
  · subst he
    rw [if_pos rfl, parseDec,
      splitDot_no_dot _ (fun c hc => (natDigits_are_digits m c hc).2)]
    dsimp only
    rw [if_pos ⟨natDigits_ne_nil m,
      List.all_eq_true.2 (fun c hc => (natDigits_are_digits m c hc).1)⟩]
    rw [digitsVal_natDigits]
  · rw [if_neg he]
    simp only
    set s := padZeros (e + 1) (natDigits m) with hs
    have hsdig : ∀ c ∈ s, isDigitChar c = true ∧ c ≠ '.' :=
      padZeros_digits _ _ (natDigits_are_digits m)
    have hslen : e + 1 ≤ s.length := by
      rw [hs, padZeros_length]
      exact le_max_left _ _
    set I := s.take (s.length - e) with hI
    set F := s.drop (s.length - e) with hF
    have hIF : I ++ F = s := List.take_append_drop _ _
    have hIsub : ∀ c ∈ I, isDigitChar c = true ∧ c ≠ '.' :=
      fun c hc => hsdig c (List.take_subset _ _ hc)
    have hFsub : ∀ c ∈ F, isDigitChar c = true ∧ c ≠ '.' :=
      fun c hc => hsdig c (List.drop_subset _ _ hc)
    have hIlen : I.length = s.length - e := by
      rw [hI, List.length_take]
      omega
    have hFlen : F.length = e := by
      rw [hF, List.length_drop]
      omega
    have hIne : I ≠ [] := by
      intro hemp
      rw [hemp] at hIlen
      simp at hIlen
      omega
    have hFne : F ≠ [] := by
      intro hemp
      rw [hemp] at hFlen
      simp at hFlen
      exact he hFlen.symm
    rw [parseDec, splitDot_append I F (fun c hc => (hIsub c hc).2)]
    dsimp only
    rw [if_pos ⟨hIne, hFne,
      List.all_eq_true.2 (fun c hc => (hIsub c hc).1),
      List.all_eq_true.2 (fun c hc => (hFsub c hc).1)⟩]
    rw [hIF, hs, digitsVal_padZeros, digitsVal_natDigits, hFlen]

theorem decodeRecord_rowCells (r : SummaryCells) :
    decodeRecord (rowCells r) = some r := by
  obtain ⟨i, n, c, se, g, a, ar, sr⟩ := r
  simp [rowCells, decodeRecord, parseDec_renderDec]

theorem decodeRows_rowCells (l : List SummaryCells) :
    decodeRows (l.map rowCells) = some l := by
  induction l with
  | nil => rfl
  | cons r t ih => simp [decodeRows, decodeRecord_rowCells, ih]

/-- C9: serializing a non-empty cohort with `to_csv` (header record plus one
record per cohort member, minimally quoted) and re-parsing the text by the
same delimited grammar reproduces the cohort exactly — same row count, every
text field (the ID included) byte-for-byte, and every numeric cell as the
same decimal, with no precision loss; no table other than the cohort enters
the computation. -/
theorem exportCsv_roundTrip (cohort : List SummaryCells)
    (_hne : cohort ≠ []) :
    reparse (exportCsv cohort) = some cohort := by
  have hrec : ∀ r ∈ summaryHeader :: cohort.map rowCells, r ≠ [] := by
    intro r hr
    rcases List.mem_cons.1 hr with rfl | hr
    · simp [summaryHeader]
    · obtain ⟨x, _, rfl⟩ := List.mem_map.1 hr
      simp [rowCells]
  rw [reparse, exportCsv, parseCsv_encodeCsv _ hrec]
  simp [decodeRows_rowCells]

/-- Closed instance of `exportCsv_roundTrip` on a one-row cohort whose Name
contains a comma (hence is quoted) and whose numeric cells are 82.5, 0.9
and 1. -/
theorem exportCsv_roundTrip_witness :
    cohortExport ≠ [] ∧ reparse (exportCsv cohortExport) = some cohortExport :=
  ⟨by decide, exportCsv_roundTrip cohortExport (by decide)⟩

/-- Closed instance of `upcoming_excludes_unparsed` at a joined row whose
Deadline is the unknown-date marker. -/
theorem upcoming_excludes_unparsed_witness :
    (⟨"S1", "HW1", "Math", none, false, 0⟩ : AssignmentRow) ∈
        upcomingRows (innerJoinID (fun a => a.id) asgNaT cohortS1) 0 ↔
      (⟨"S1", "HW1", "Math", none, false, 0⟩ : AssignmentRow) ∈
          innerJoinID (fun a => a.id) asgNaT cohortS1 ∧
        ∃ d, (none : Option ℕ) = some d ∧ 0 ≤ d :=
  upcoming_excludes_unparsed asgNaT cohortS1 0
    ⟨"S1", "HW1", "Math", none, false, 0⟩
